import Mathlib

set_option maxHeartbeats 1000000

/-!
A shallow embedding of the per-channel synchronization core of
koishi-plugin-messages (`src/packages/core/src/channel.ts` and
`src/packages/core/src/index.ts`), together with theorems checking the
specification's claims about it.  Machine-level conventions: JS numbers
that hold epoch milliseconds are modelled as `Int`; JS `undefined` for
an optional string is `Option.none`; a thrown exception is modelled by
an `Option`/sum result of the function that throws.
-/

/-- Sync status of a channel actor, `SyncStatus` in channel.ts lines 6-10:
`SYNCING → SYNCED`, with `FAILED` for any error. -/
inductive SyncStatus where
  | SYNCING
  | SYNCED
  | FAILED
deriving DecidableEq

/-- The fields of a `Universal.Message` / `Session` that the core reads:
upstream message id, receiving bot (`selfId`), author, body, creation
time in epoch ms, and the optional channel display name carried by live
sessions. -/
structure UMessage where
  messageId : String
  selfId : String
  userId : String
  content : String
  timestamp : Int
  channelId : String := ""
  channelName : Option String := none
  quoteId : Option String := none
  username : String := ""
  nickname : String := ""
deriving DecidableEq

/-- Row of the message table as declared by `ctx.model.extend('message', ...)`
in index.ts lines 27-42 (the autoincrement `id` column is left implicit:
lists below keep rows in `id` order). -/
structure MessageRecord where
  content : String
  platform : String
  guildId : String
  messageId : String
  userId : String
  timestamp : Int
  quoteId : Option String
  username : String
  nickname : String
  channelId : String
  selfId : String
  lastUpdated : Int
  deleted : Int
deriving DecidableEq

/-- Modelled from the spec: `Message.adapt` lives in
`src/packages/core/src/message.ts`, which is not among the sources.
Spec §3 describes the record as carrying the channel identity, the
authorship fields, `content`, `quoteId` and the upstream `timestamp`
unchanged; the channel passes its own `platform` and `guildId`
(channel.ts lines 89-92). -/
def Message.adapt (m : UMessage) (platform guildId : String) : MessageRecord :=
  { content := m.content
    platform := platform
    guildId := guildId
    messageId := m.messageId
    userId := m.userId
    timestamp := m.timestamp
    quoteId := m.quoteId
    username := m.username
    nickname := m.nickname
    channelId := m.channelId
    selfId := m.selfId
    lastUpdated := m.timestamp
    deleted := 0 }

/-- What `SyncChannel.adapt` (channel.ts lines 89-97) returns: the whole
batch mapped through `Message.adapt`. -/
def adaptReturned (platform guildId : String) (buffer : List UMessage) : List MessageRecord :=
  buffer.map (fun m => Message.adapt m platform guildId)

/-- What `SyncChannel.adapt` hands to `database.upsert`: only the mapped
records younger than `maxAge` (channel.ts lines 93-95,
`Date.now() - +message.timestamp < maxAge`). -/
def adaptUpserted (now maxAge : Int) (platform guildId : String) (buffer : List UMessage) : List MessageRecord :=
  (adaptReturned platform guildId buffer).filter (fun r => now - r.timestamp < maxAge)

/-- JS truthiness of an optional string: `undefined` and the empty
string are falsy. -/
def jsFalsy : Option String → Bool
  | none => true
  | some s => s == ""

/-- The live-path state of one `SyncChannel` that the claims inspect:
`assignee` and `channelName` from `ChannelData`, the `status`, the
pending `_buffer`, and `written`, the concatenation of every batch the
actor has handed to its store-write path (`adapt`) so far. -/
structure LiveState where
  assignee : Option String
  channelName : Option String
  status : SyncStatus
  buffer : List UMessage
  written : List UMessage
deriving DecidableEq

/-- A fresh actor (channel.ts lines 23-32): no assignee, status
`SYNCING`, empty buffer, nothing written. -/
def initState : LiveState :=
  { assignee := none
    channelName := none
    status := SyncStatus.SYNCING
    buffer := []
    written := [] }

/-- The display-name update at the end of `accept` (channel.ts lines
41-43): `if (session.channelName) this.data.channelName = session.channelName`. -/
def updName (st : LiveState) (s : UMessage) : LiveState :=
  if jsFalsy s.channelName then st else { st with channelName := s.channelName }

/-- The `SyncChannel.accept` method (channel.ts lines 34-44).  Returns
the updated state and `true` exactly when the event is rejected: an
assignee is already present (truthy) and differs from the sender. -/
def acceptStep (st : LiveState) (s : UMessage) : LiveState × Bool :=
  if jsFalsy st.assignee then
    (updName { st with assignee := some s.selfId } s, false)
  else if st.assignee ≠ some s.selfId then
    (st, true)
  else
    (updName st s, false)

/-- The buffer push in `queue` (channel.ts line 48). -/
def pushEvent (st : LiveState) (s : UMessage) : LiveState :=
  { st with buffer := st.buffer ++ [s] }

/-- The body of the `ensure` callback in `queue` (channel.ts lines
49-56), with the one-time initialization abstracted by the oracle `ok`:
`ok = true` means `init` completed and set `SYNCED` (channel.ts line
137), `ok = false` means a step of it threw, which `ensure` turns into
`FAILED` (channel.ts line 66).  Once `SYNCED`, the chained `flush`
drains the whole buffer into `written`. -/
def ensureFlush (ok : Bool) (st : LiveState) : LiveState :=
  let st :=
    if st.status = SyncStatus.SYNCING then
      if ok then { st with status := SyncStatus.SYNCED }
      else { st with status := SyncStatus.FAILED }
    else st
  if st.status = SyncStatus.SYNCED then
    { st with written := st.written ++ st.buffer, buffer := [] }
  else st

/-- One `queue` call (channel.ts lines 46-57) guarded by `ensure`
(channel.ts lines 59-68): rejected events are dropped before the push;
accepted events are pushed; then `ensure` returns at once when the
actor is `FAILED` or the service is stopped, and otherwise runs the
init-and-flush callback. -/
def queueStep (stopped : Bool) (st : LiveState) (arg : UMessage × Bool) : LiveState :=
  let p := acceptStep st arg.1
  if p.2 then p.1
  else
    let st := pushEvent p.1 arg.1
    if st.status = SyncStatus.FAILED then st
    else if stopped then st
    else ensureFlush arg.2 st

/-- A whole inbound stream: fold `queueStep` over the events, each
paired with its init-outcome oracle. -/
def runQueue (stopped : Bool) (st : LiveState) (evs : List (UMessage × Bool)) : LiveState :=
  evs.foldl (queueStep stopped) st

/-- Ownership invariant: the actor's assignee is `a`, and every event
buffered or ever handed to the store-write path came from `a`. -/
def Owned (a : String) (st : LiveState) : Prop :=
  st.assignee = some a ∧ (∀ m ∈ st.buffer, m.selfId = a) ∧ (∀ m ∈ st.written, m.selfId = a)

theorem updName_assignee (st : LiveState) (s : UMessage) :
    (updName st s).assignee = st.assignee := by
  unfold updName; split <;> rfl

theorem updName_status (st : LiveState) (s : UMessage) :
    (updName st s).status = st.status := by
  unfold updName; split <;> rfl

theorem updName_buffer (st : LiveState) (s : UMessage) :
    (updName st s).buffer = st.buffer := by
  unfold updName; split <;> rfl

theorem updName_written (st : LiveState) (s : UMessage) :
    (updName st s).written = st.written := by
  unfold updName; split <;> rfl

theorem acceptStep_status (st : LiveState) (s : UMessage) :
    ((acceptStep st s).1).status = st.status := by
  unfold acceptStep
  split
  · rw [updName_status]
  · split
    · rfl
    · rw [updName_status]

theorem acceptStep_written (st : LiveState) (s : UMessage) :
    ((acceptStep st s).1).written = st.written := by
  unfold acceptStep
  split
  · rw [updName_written]
  · split
    · rfl
    · rw [updName_written]

theorem ensureFlush_owned (a : String) (ok : Bool) (st : LiveState) (h : Owned a st) :
    Owned a (ensureFlush ok st) := by
  obtain ⟨h1, h2, h3⟩ := h
  obtain ⟨asg, cn, status, buf, wr⟩ := st
  simp only [Owned] at h1 h2 h3 ⊢
  cases status <;> cases ok <;>
    simp only [ensureFlush, reduceCtorEq, if_true, if_false, reduceIte] <;>
    simp_all <;>
    exact fun m hm => hm.elim (h3 m) (h2 m)

theorem queueStep_owned (a : String) (ha : a ≠ "") (stopped : Bool) (st : LiveState)
    (arg : UMessage × Bool) (h : Owned a st) : Owned a (queueStep stopped st arg) := by
  obtain ⟨h1, h2, h3⟩ := h
  have hfalsy : jsFalsy st.assignee = false := by
    rw [h1]; simpa [jsFalsy] using ha
  by_cases hs : arg.1.selfId = a
  · -- sender is the assignee: accepted, pushed, then init/flush guarded run
    have hacc : acceptStep st arg.1 = (updName st arg.1, false) := by
      unfold acceptStep
      rw [hfalsy, h1, hs]
      simp
    have hOwnPush : Owned a (pushEvent (updName st arg.1) arg.1) := by
      refine ⟨?_, ?_, ?_⟩
      · show (updName st arg.1).assignee = some a
        rw [updName_assignee, h1]
      · intro m hm
        rw [pushEvent, updName_buffer] at hm
        rcases List.mem_append.1 hm with hm | hm
        · exact h2 m hm
        · rw [List.mem_singleton.1 hm]; exact hs
      · intro m hm
        rw [pushEvent] at hm
        exact h3 m (by simpa [updName_written] using hm)
    unfold queueStep
    rw [hacc]
    simp only [if_false, Bool.false_eq_true, reduceIte]
    split
    · exact hOwnPush
    · split
      · exact hOwnPush
      · exact ensureFlush_owned a arg.2 _ hOwnPush
  · -- competing sender: rejected before the push
    have hacc : acceptStep st arg.1 = (st, true) := by
      unfold acceptStep
      rw [hfalsy, h1]
      have : ¬ (some a = some arg.1.selfId) := by
        intro hcontra
        exact hs (Option.some.inj hcontra).symm
      simp [this]
    unfold queueStep
    rw [hacc]
    exact ⟨h1, h2, h3⟩

theorem queueStep_first (stopped : Bool) (e : UMessage) (b : Bool) :
    Owned e.selfId (queueStep stopped initState (e, b)) := by
  have hacc : acceptStep initState e =
      (updName { initState with assignee := some e.selfId } e, false) := by
    unfold acceptStep
    simp [initState, jsFalsy]
  have hOwnPush : Owned e.selfId (pushEvent (updName { initState with assignee := some e.selfId } e) e) := by
    refine ⟨?_, ?_, ?_⟩
    · show (updName { initState with assignee := some e.selfId } e).assignee = some e.selfId
      rw [updName_assignee]
    · intro m hm
      rw [pushEvent, updName_buffer] at hm
      simp only [initState, List.nil_append, List.mem_singleton] at hm
      rw [hm]
    · intro m hm
      rw [pushEvent] at hm
      simp only [updName_written, initState, List.not_mem_nil] at hm
  unfold queueStep
  rw [hacc]
  simp only [if_false, Bool.false_eq_true, reduceIte]
  split
  · exact hOwnPush
  · split
    · exact hOwnPush
    · exact ensureFlush_owned e.selfId b _ hOwnPush

theorem runQueue_owned (a : String) (ha : a ≠ "") (stopped : Bool)
    (evs : List (UMessage × Bool)) (st : LiveState) (h : Owned a st) :
    Owned a (runQueue stopped st evs) := by
  induction evs generalizing st with
  | nil => exact h
  | cons q rest ih => exact ih (queueStep stopped st q) (queueStep_owned a ha stopped st q h)

/-- C3: for every channel actor, `accept` adopts the first event's
sender as the assignee, which then never changes; every later event
from a different sender is rejected before the buffer push, so no event
— and hence no record — from such a sender ever reaches the buffer or
the store-write path.  Hypothesis: the first sender's bot id is a
non-empty string (the empty string is falsy in the JS truthiness test
`!this.data.assignee`). -/
theorem C3_single_assignee (stopped : Bool) (e : UMessage) (b : Bool)
    (rest : List (UMessage × Bool)) (he : e.selfId ≠ "") :
    (runQueue stopped initState ((e, b) :: rest)).assignee = some e.selfId ∧
    (∀ m ∈ (runQueue stopped initState ((e, b) :: rest)).buffer, m.selfId = e.selfId) ∧
    (∀ m ∈ (runQueue stopped initState ((e, b) :: rest)).written, m.selfId = e.selfId) := by
  have h0 : Owned e.selfId (queueStep stopped initState (e, b)) := queueStep_first stopped e b
  have h : Owned e.selfId (runQueue stopped (queueStep stopped initState (e, b)) rest) :=
    runQueue_owned e.selfId he stopped rest (queueStep stopped initState (e, b)) h0
  exact h

/-- Sample live event from bot `A`. -/
def evA : UMessage :=
  { messageId := "ma", selfId := "A", userId := "u1", content := "hello", timestamp := 100 }

/-- Sample live event from a competing bot `B` in the same channel. -/
def evB : UMessage :=
  { messageId := "mb", selfId := "B", userId := "u2", content := "competing", timestamp := 101 }

theorem C3_single_assignee_witness :
    (runQueue false initState [(evA, true), (evB, true)]).assignee = some evA.selfId ∧
    (∀ m ∈ (runQueue false initState [(evA, true), (evB, true)]).buffer, m.selfId = evA.selfId) ∧
    (∀ m ∈ (runQueue false initState [(evA, true), (evB, true)]).written, m.selfId = evA.selfId) :=
  C3_single_assignee false evA true [(evB, true)] (by decide)

theorem queueStep_failed (stopped : Bool) (st : LiveState) (arg : UMessage × Bool)
    (h : st.status = SyncStatus.FAILED) :
    (queueStep stopped st arg).status = SyncStatus.FAILED ∧
    (queueStep stopped st arg).written = st.written := by
  have hps : (pushEvent (acceptStep st arg.1).1 arg.1).status = SyncStatus.FAILED := by
    rw [pushEvent]
    exact (acceptStep_status st arg.1).trans h
  by_cases hr : (acceptStep st arg.1).2 = true
  · have hq : queueStep stopped st arg = (acceptStep st arg.1).1 := by
      simp only [queueStep]
      rw [if_pos hr]
    rw [hq]
    exact ⟨(acceptStep_status st arg.1).trans h, acceptStep_written st arg.1⟩
  · have hq : queueStep stopped st arg = pushEvent (acceptStep st arg.1).1 arg.1 := by
      simp only [queueStep]
      rw [if_neg hr, if_pos hps]
    rw [hq]
    exact ⟨hps, by rw [pushEvent]; exact acceptStep_written st arg.1⟩

/-- C4: `FAILED` is absorbing.  Once the actor's status is `FAILED`,
every later `queue` call — for any number of calls, any senders and any
init outcomes — leaves `written` (the material ever handed to
`database.upsert`) and the status unchanged: `ensure` returns before
running its callback (channel.ts line 60). -/
theorem C4_failed_absorbing (stopped : Bool) (st : LiveState) (evs : List (UMessage × Bool))
    (h : st.status = SyncStatus.FAILED) :
    (runQueue stopped st evs).status = SyncStatus.FAILED ∧
    (runQueue stopped st evs).written = st.written := by
  induction evs generalizing st with
  | nil => exact ⟨h, rfl⟩
  | cons q rest ih =>
    have hs := queueStep_failed stopped st q h
    have hr := ih (queueStep stopped st q) hs.1
    exact ⟨hr.1, hr.2.trans hs.2⟩

/-- A concrete failed actor with one already-written event. -/
def failedState : LiveState :=
  { assignee := some "A"
    channelName := none
    status := SyncStatus.FAILED
    buffer := []
    written := [evA] }

theorem C4_failed_absorbing_witness :
    (runQueue false failedState [(evA, true), (evB, false)]).status = SyncStatus.FAILED ∧
    (runQueue false failedState [(evA, true), (evB, false)]).written = failedState.written :=
  C4_failed_absorbing false failedState [(evA, true), (evB, false)] (by decide)

/-- The identity record an actor is constructed with.  `Option String`
fields so that the value of a missing JS constructor argument
(`undefined`) is representable. -/
structure ActorIdentity where
  platform : Option String
  guildId : Option String
  channelId : Option String
deriving DecidableEq

/-- The `SyncChannel` constructor body (channel.ts lines 30-32):
`this.data = { platform, guildId, channelId }`, in declared parameter
order `(ctx, platform, guildId, channelId)`. -/
def SyncChannel.mkData (platform guildId channelId : Option String) : ActorIdentity :=
  { platform := platform, guildId := guildId, channelId := channelId }

/-- The channel-identifying fields of an inbound `Session`. -/
structure SessionKey where
  platform : String
  guildId : String
  channelId : String
  selfId : String
deriving DecidableEq

/-- `MessageService.#onMessage` (index.ts lines 102-107): after the
assignee gate passes, the actor for `session.cid` is created (when
absent) by `new SyncChannel(this.ctx, session.platform, session.channelId)`
— three arguments for the four-parameter constructor, so under JS call
semantics the `guildId` parameter receives `session.channelId` and the
trailing `channelId` parameter receives `undefined`. -/
def onMessageNewActor (s : SessionKey) : ActorIdentity :=
  SyncChannel.mkData (some s.platform) (some s.channelId) none

/-- The assignee gate of `#onMessage` (index.ts lines 103-104): the
event is processed only when the stored channel assignee strictly
equals the session's bot id. -/
def onMessageAccepts (storedAssignee : Option String) (s : SessionKey) : Bool :=
  storedAssignee == some s.selfId

/-- C2 (code bug): for the gated event with platform `sandbox`, guild
`g1`, channel `c1`, the actor that `#onMessage` creates does not carry
the event's identity: its `guildId` field holds the event's channel id
`c1` instead of `g1`, and its `channelId` field holds `undefined` —
the constructor call at index.ts line 105 passes three arguments to the
four-parameter constructor of channel.ts line 30. -/
theorem C2_actor_identity_bug :
    onMessageAccepts (some "bot1") ⟨"sandbox", "g1", "c1", "bot1"⟩ = true ∧
    (onMessageNewActor ⟨"sandbox", "g1", "c1", "bot1"⟩).platform = some "sandbox" ∧
    (onMessageNewActor ⟨"sandbox", "g1", "c1", "bot1"⟩).guildId = some "c1" ∧
    (onMessageNewActor ⟨"sandbox", "g1", "c1", "bot1"⟩).guildId ≠ some "g1" ∧
    (onMessageNewActor ⟨"sandbox", "g1", "c1", "bot1"⟩).channelId = none := by
  refine ⟨rfl, rfl, rfl, ?_, rfl⟩
  decide

/-- The inner `for (const message of data.reverse())` loop of
`syncHistory` (channel.ts lines 77-84): `l` is the already-reversed
page; each message other than `rear` is `unshift`ed onto the buffer;
hitting `rear` stops the whole loop (`break outer`).  Returns the new
buffer and whether `rear` was hit. -/
def pageStep (rear : String) : List UMessage → List UMessage → List UMessage × Bool
  | [], buffer => (buffer, false)
  | m :: rest, buffer =>
    if m.messageId = rear then (buffer, true)
    else pageStep rear rest (m :: buffer)

/-- The `outer` loop of `SyncChannel.syncHistory` (channel.ts lines
74-85), run against a remote source that serves the given pages in
order, each page in chronological (oldest-first) order as
`getMessageList` returns them, and an empty page once exhausted.
`next = data[0].messageId` on an empty page throws (`data[0]` is
`undefined`), which this model reports as `none`. -/
def syncHistoryGo (rear : String) : List (List UMessage) → List UMessage → Option (List UMessage)
  | [], _ => none
  | p :: rest, buffer =>
    if p.isEmpty then none
    else
      let q := pageStep rear p.reverse buffer
      if q.2 then some q.1 else syncHistoryGo rear rest q.1

theorem pageStep_sublist (rear : String) (l : List UMessage) (buffer : List UMessage) :
    List.Sublist (pageStep rear l buffer).1 (l.reverse ++ buffer) := by
  induction l generalizing buffer with
  | nil => simp [pageStep]
  | cons m rest ih =>
    rw [pageStep]
    split
    · exact List.sublist_append_right (m :: rest).reverse buffer
    · have heq : (m :: rest).reverse ++ buffer = rest.reverse ++ (m :: buffer) := by
        simp [List.reverse_cons, List.append_assoc]
      rw [heq]
      exact ih (m :: buffer)

theorem syncHistoryGo_sublist (rear : String) (pages : List (List UMessage))
    (buffer buf2 : List UMessage)
    (h : syncHistoryGo rear pages buffer = some buf2) :
    List.Sublist buf2 (pages.reverse.flatten ++ buffer) := by
  induction pages generalizing buffer with
  | nil => exact absurd h (by simp [syncHistoryGo])
  | cons p rest ih =>
    simp only [syncHistoryGo] at h
    by_cases hp : p.isEmpty = true
    · rw [if_pos hp] at h
      exact absurd h (by simp)
    · rw [if_neg hp] at h
      have hps := pageStep_sublist rear p.reverse buffer
      rw [List.reverse_reverse] at hps
      have hflat : (p :: rest).reverse.flatten ++ buffer = rest.reverse.flatten ++ (p ++ buffer) := by
        simp [List.reverse_cons, List.append_assoc]
      rw [hflat]
      by_cases hfound : (pageStep rear p.reverse buffer).2 = true
      · rw [if_pos hfound] at h
        have hbe : buf2 = (pageStep rear p.reverse buffer).1 := (Option.some.inj h).symm
        rw [hbe]
        exact hps.trans (List.sublist_append_right rest.reverse.flatten (p ++ buffer))
      · rw [if_neg hfound] at h
        exact (ih (pageStep rear p.reverse buffer).1 h).trans (hps.append_left rest.reverse.flatten)

/-- C1: during backfill with a newest stored record `rear`, the loop of
`syncHistory` prepends fetched history so that — whenever the remote
pages are chronologically coherent (the fetch-order pages, laid oldest
page first, followed by the live buffer, are strictly increasing in
time) — the resulting buffer is strictly increasing in time, and so is
the batch the immediate `flush` then hands to `database.upsert`. -/
theorem C1_backfill_chronological (rear : String) (pages : List (List UMessage))
    (buffer : List UMessage) (now maxAge : Int) (platform guildId : String)
    (hsorted : (pages.reverse.flatten ++ buffer).Pairwise
      (fun a b => a.timestamp < b.timestamp)) :
    ∀ buf2, syncHistoryGo rear pages buffer = some buf2 →
      buf2.Pairwise (fun a b => a.timestamp < b.timestamp) ∧
      (adaptUpserted now maxAge platform guildId buf2).Pairwise
        (fun r q => r.timestamp < q.timestamp) := by
  intro buf2 h
  have hsub := syncHistoryGo_sublist rear pages buffer buf2 h
  have hb : buf2.Pairwise (fun a b => a.timestamp < b.timestamp) := hsorted.sublist hsub
  refine ⟨hb, ?_⟩
  have hmap : (adaptReturned platform guildId buf2).Pairwise
      (fun r q => r.timestamp < q.timestamp) := by
    rw [adaptReturned, List.pairwise_map]
    exact hb
  simp only [adaptUpserted]
  exact hmap.sublist (List.filter_sublist _)

/-- Sample backfilled history message with ascending timestamps. -/
def histMsg (i : String) (ts : Int) : UMessage :=
  { messageId := i, selfId := "A", userId := "u", content := "c", timestamp := ts }

def m2 : UMessage := histMsg "m2" 2
def m3 : UMessage := histMsg "m3" 3
def m4 : UMessage := histMsg "m4" 4
def m5 : UMessage := histMsg "m5" 5
def m6 : UMessage := histMsg "m6" 6
def m7 : UMessage := histMsg "m7" 7

theorem C1_backfill_chronological_witness :
    ([m4, m5, m6, m7] : List UMessage).Pairwise (fun a b => a.timestamp < b.timestamp) ∧
    (adaptUpserted 10 100 "pf" "gd" [m4, m5, m6, m7]).Pairwise
      (fun r q => r.timestamp < q.timestamp) :=
  C1_backfill_chronological "m3" [[m4, m5, m6], [m2, m3]] [m7] 10 100 "pf" "gd"
    (by decide) [m4, m5, m6, m7] (by decide)

/-- Outcome of one run of the backfill loop: the buffer when `rear` was
met (that message excluded), or the buffer at the moment an empty page
made `next = data[0].messageId` throw a `TypeError` (`data[0]` is
`undefined`), which also stops the loop — the exception propagates to
`ensure`. -/
inductive SyncStop where
  | foundRear (buffer : List UMessage)
  | emptyPage (buffer : List UMessage)
deriving DecidableEq

/-- The `outer` loop of `syncHistory` again, with an explicit iteration
budget standing for the unbounded `while (true)`: `none` means the
budget was exhausted with the loop still running.  The source serves
its pages in order and an empty page once exhausted. -/
def syncHistoryFuel (rear : String) : Nat → List (List UMessage) → List UMessage → Option SyncStop
  | 0, _, _ => none
  | Nat.succ fuel, pages, buffer =>
    match pages with
    | [] => some (SyncStop.emptyPage buffer)
    | p :: rest =>
      if p.isEmpty then some (SyncStop.emptyPage buffer)
      else
        let q := pageStep rear p.reverse buffer
        if q.2 then some (SyncStop.foundRear q.1)
        else syncHistoryFuel rear fuel rest q.1

theorem pageStep_no_rear (rear : String) (l buffer : List UMessage)
    (h : ∀ m ∈ buffer, m.messageId ≠ rear) :
    ∀ m ∈ (pageStep rear l buffer).1, m.messageId ≠ rear := by
  induction l generalizing buffer with
  | nil => exact h
  | cons m rest ih =>
    rw [pageStep]
    split
    · exact h
    · rename_i hne
      refine ih (m :: buffer) ?_
      intro x hx
      rcases List.mem_cons.1 hx with hx | hx
      · rw [hx]; exact hne
      · exact h x hx

/-- C5: the backfill loop terminates within one iteration per page the
source can serve (the budget `pages.length + 1` is never exhausted):
it stops either because a fetched message's id equals `rear` — and that
message is excluded, no message with id `rear` is ever in the returned
buffer — or because it met an empty page, the exhausted-source case,
where `data[0]` throws and the loop aborts instead of spinning
forever. -/
theorem C5_backfill_terminates (rear : String) (pages : List (List UMessage))
    (buffer : List UMessage) (h : ∀ m ∈ buffer, m.messageId ≠ rear) :
    (syncHistoryFuel rear (pages.length + 1) pages buffer).isSome = true ∧
    (∀ b, syncHistoryFuel rear (pages.length + 1) pages buffer =
        some (SyncStop.foundRear b) → ∀ m ∈ b, m.messageId ≠ rear) := by
  induction pages generalizing buffer with
  | nil =>
    refine ⟨rfl, ?_⟩
    intro b hb
    exact absurd hb (by simp [syncHistoryFuel])
  | cons p rest ih =>
    simp only [syncHistoryFuel, List.length_cons]
    by_cases hp : p.isEmpty = true
    · rw [if_pos hp]
      refine ⟨rfl, ?_⟩
      intro b hb
      simp at hb
    · rw [if_neg hp]
      by_cases hf : (pageStep rear p.reverse buffer).2 = true
      · rw [if_pos hf]
        refine ⟨rfl, ?_⟩
        intro b hb
        have hb2 := Option.some.inj hb
        have hqb : (pageStep rear p.reverse buffer).1 = b := by
          injection hb2
        rw [← hqb]
        exact pageStep_no_rear rear p.reverse buffer h
      · rw [if_neg hf]
        exact ih (pageStep rear p.reverse buffer).1 (pageStep_no_rear rear p.reverse buffer h)

theorem C5_backfill_terminates_witness :
    (syncHistoryFuel "m3" (([[m4, m5, m6], [m2, m3]] : List (List UMessage)).length + 1)
      [[m4, m5, m6], [m2, m3]] [m7]).isSome = true ∧
    (∀ b, syncHistoryFuel "m3" (([[m4, m5, m6], [m2, m3]] : List (List UMessage)).length + 1)
        [[m4, m5, m6], [m2, m3]] [m7] = some (SyncStop.foundRear b) →
      ∀ m ∈ b, m.messageId ≠ "m3") :=
  C5_backfill_terminates "m3" [[m4, m5, m6], [m2, m3]] [m7] (by decide)

/-- One complete `flush` call (channel.ts lines 142-147) run to
completion.  The i-th entry of `arrivals` is the batch of events pushed
onto `_buffer` while the i-th iteration's `adapt` awaited its upsert;
each iteration `splice`s the whole current buffer, maps it through
`Message.adapt`, upserts the in-retention part and emits the full
adapted batch.  Each list element is the (upserted, emitted) pair of
one iteration. -/
def flushRun (now maxAge : Int) (platform guildId : String) :
    List UMessage → List (List UMessage) → List (List MessageRecord × List MessageRecord)
  | [], _ => []
  | b :: bs, [] =>
    [(adaptUpserted now maxAge platform guildId (b :: bs),
      adaptReturned platform guildId (b :: bs))]
  | b :: bs, a :: rest =>
    (adaptUpserted now maxAge platform guildId (b :: bs),
      adaptReturned platform guildId (b :: bs)) ::
      flushRun now maxAge platform guildId a rest

theorem flushRun_spec (now maxAge : Int) (platform guildId : String)
    (arrivals : List (List UMessage)) :
    ∀ buffer : List UMessage, buffer ≠ [] → (∀ a ∈ arrivals, a ≠ []) →
      (flushRun now maxAge platform guildId buffer arrivals).length = arrivals.length + 1 ∧
      ((flushRun now maxAge platform guildId buffer arrivals).map Prod.snd).flatten
        = adaptReturned platform guildId (buffer ++ arrivals.flatten) ∧
      (∀ pr ∈ flushRun now maxAge platform guildId buffer arrivals,
        pr.1 = pr.2.filter (fun r => now - r.timestamp < maxAge)) := by
  induction arrivals with
  | nil =>
    intro buffer hb _
    cases buffer with
    | nil => exact absurd rfl hb
    | cons b bs =>
      refine ⟨rfl, ?_, ?_⟩
      · simp [flushRun, adaptReturned]
      · intro pr hpr
        rw [List.mem_singleton.1 hpr]
        rfl
  | cons a rest ih =>
    intro buffer hb ha
    cases buffer with
    | nil => exact absurd rfl hb
    | cons b bs =>
      have ha1 : a ≠ [] := ha a (List.mem_cons_self a rest)
      have ha2 : ∀ x ∈ rest, x ≠ [] := fun x hx => ha x (List.mem_cons_of_mem a hx)
      obtain ⟨ih1, ih2, ih3⟩ := ih a ha1 ha2
      refine ⟨?_, ?_, ?_⟩
      · simp only [flushRun, List.length_cons, ih1]
      · simp only [flushRun, List.map_cons, List.flatten_cons, ih2]
        simp [adaptReturned, List.append_assoc]
      · intro pr hpr
        rcases List.mem_cons.1 hpr with hpr | hpr
        · rw [hpr]
          rfl
        · exact ih3 pr hpr

/-- C7: each `flush` call loops while the buffer is non-empty; every
iteration splices off the entire current buffer as one batch, adapts
it, upserts exactly the records within the retention window and emits
the full adapted batch; events enqueued while an iteration awaited are
the next iteration's batch of the same call — the call performs exactly
`arrivals.length + 1` iterations and the emitted batches, concatenated,
adapt the entire inflow in arrival order. -/
theorem C7_flush_batches (now maxAge : Int) (platform guildId : String)
    (buffer : List UMessage) (arrivals : List (List UMessage))
    (hb : buffer ≠ []) (ha : ∀ a ∈ arrivals, a ≠ []) :
    (flushRun now maxAge platform guildId buffer arrivals).length = arrivals.length + 1 ∧
    ((flushRun now maxAge platform guildId buffer arrivals).map Prod.snd).flatten
      = adaptReturned platform guildId (buffer ++ arrivals.flatten) ∧
    (∀ pr ∈ flushRun now maxAge platform guildId buffer arrivals,
      pr.1 = pr.2.filter (fun r => now - r.timestamp < maxAge)) :=
  flushRun_spec now maxAge platform guildId arrivals buffer hb ha

theorem C7_flush_batches_witness :
    (flushRun 10 100 "pf" "gd" [m4] [[m5]]).length = ([[m5]] : List (List UMessage)).length + 1 ∧
    ((flushRun 10 100 "pf" "gd" [m4] [[m5]]).map Prod.snd).flatten
      = adaptReturned "pf" "gd" ([m4] ++ ([[m5]] : List (List UMessage)).flatten) ∧
    (∀ pr ∈ flushRun 10 100 "pf" "gd" [m4] [[m5]],
      pr.1 = pr.2.filter (fun r => (10 : Int) - r.timestamp < 100)) :=
  C7_flush_batches 10 100 "pf" "gd" [m4] [[m5]] (by decide) (by decide)

theorem flushRun_filter (now maxAge : Int) (platform guildId : String)
    (arrivals : List (List UMessage)) :
    ∀ buffer : List UMessage, ∀ pr ∈ flushRun now maxAge platform guildId buffer arrivals,
      pr.1 = pr.2.filter (fun r => now - r.timestamp < maxAge) := by
  induction arrivals with
  | nil =>
    intro buffer pr hpr
    cases buffer with
    | nil => simp [flushRun] at hpr
    | cons b bs =>
      rw [List.mem_singleton.1 hpr]
      rfl
  | cons a rest ih =>
    intro buffer pr hpr
    cases buffer with
    | nil => simp [flushRun] at hpr
    | cons b bs =>
      rcases List.mem_cons.1 hpr with hpr | hpr
      · rw [hpr]
        rfl
      · exact ih a pr hpr

/-- C10: in every flush iteration the emitted batch is the full adapted
batch while the upsert got only its in-retention sublist, so the
notified batch is a (possibly strict) superset of what was persisted;
strictness happens: with `maxAge = 1` and a message of age 1000, the
iteration upserts nothing yet notifies the adapted record. -/
theorem C10_notify_superset :
    (∀ (now maxAge : Int) (platform guildId : String) (buffer : List UMessage)
        (arrivals : List (List UMessage)),
      ∀ pr ∈ flushRun now maxAge platform guildId buffer arrivals,
        List.Sublist pr.1 pr.2) ∧
    flushRun 1000 1 "pf" "gd" [histMsg "m0" 0] []
      = [([], [Message.adapt (histMsg "m0" 0) "pf" "gd"])] := by
  constructor
  · intro now maxAge platform guildId buffer arrivals pr hpr
    rw [flushRun_filter now maxAge platform guildId arrivals buffer pr hpr]
    exact List.filter_sublist _
  · decide

theorem C10_notify_superset_witness :
    List.Sublist ([] : List MessageRecord) [Message.adapt (histMsg "m0" 0) "pf" "gd"] :=
  C10_notify_superset.1 1000 1 "pf" "gd" [histMsg "m0" 0] []
    ([], [Message.adapt (histMsg "m0" 0) "pf" "gd"]) (by decide)

/-- Events the service can broadcast: the channel-ready and
messages-persisted notifications the core emits (channel.ts lines 139
and 145), and the `messages/syncFailed` event whose signature index.ts
line 16 declares. -/
inductive Emit where
  | channelReady
  | messagesPersisted (batch : List MessageRecord)
  | syncFailed (cid : String) (err : String)
deriving DecidableEq

/-- Result of one `ensure`-guarded run: the actor status afterwards,
the events emitted during the run, and the `logger.warn` entries. -/
structure EnsureResult where
  status : SyncStatus
  emits : List Emit
  logs : List String
deriving DecidableEq

/-- `SyncChannel.ensure` (channel.ts lines 59-68) around one callback
run.  `cbEmits` are the events the callback emitted before finishing or
throwing, `cbErr` the thrown error (`none` means it returned normally)
and `cbStatus` the status the callback left behind on normal return.
The catch block logs the error with `logger.warn` and sets `FAILED`;
it emits nothing of its own. -/
def ensureRun (stopped : Bool) (status : SyncStatus)
    (cbEmits : List Emit) (cbErr : Option String) (cbStatus : SyncStatus) : EnsureResult :=
  if status = SyncStatus.FAILED then { status := status, emits := [], logs := [] }
  else if stopped then { status := status, emits := [], logs := [] }
  else
    match cbErr with
    | none => { status := cbStatus, emits := cbEmits, logs := [] }
    | some e => { status := SyncStatus.FAILED, emits := cbEmits, logs := [e] }

/-- C6 counterexample: a live actor whose init-and-flush callback
throws before emitting anything transitions to `FAILED` and logs the
error, but the run emits no event at all — in particular no
"sync failed" notification carrying the channel key and error
accompanies the failure (no emit of `messages/syncFailed` exists in
the sources; `ensure` only calls `logger.warn`). -/
theorem C6_counterexample :
    (ensureRun false SyncStatus.SYNCING [] (some "boom") SyncStatus.SYNCING).status
      = SyncStatus.FAILED ∧
    (ensureRun false SyncStatus.SYNCING [] (some "boom") SyncStatus.SYNCING).emits = [] ∧
    (ensureRun false SyncStatus.SYNCING [] (some "boom") SyncStatus.SYNCING).logs
      = ["boom"] := by
  refine ⟨by decide, by decide, rfl⟩

/-- C6 amended: whenever a step of initialization or flush throws under
a live actor (status not `FAILED`, service not stopped), the actor
transitions to `FAILED` and the error is logged via `logger.warn`;
`ensure` adds no emission of its own, so if the failing callback had
emitted no `syncFailed` event — and nothing in the core ever emits one
— the failure carries no "sync failed" notification, only the log
entry. -/
theorem C6_failure_logged_not_emitted (stopped : Bool) (st : SyncStatus)
    (cbEmits : List Emit) (e : String) (cbStatus : SyncStatus)
    (h1 : st ≠ SyncStatus.FAILED) (h2 : stopped = false)
    (h3 : ∀ cid err, Emit.syncFailed cid err ∉ cbEmits) :
    (ensureRun stopped st cbEmits (some e) cbStatus).status = SyncStatus.FAILED ∧
    (ensureRun stopped st cbEmits (some e) cbStatus).logs = [e] ∧
    (∀ cid err,
      Emit.syncFailed cid err ∉ (ensureRun stopped st cbEmits (some e) cbStatus).emits) := by
  subst h2
  have hrun : ensureRun false st cbEmits (some e) cbStatus
      = { status := SyncStatus.FAILED, emits := cbEmits, logs := [e] } := by
    simp [ensureRun, h1]
  rw [hrun]
  exact ⟨rfl, rfl, h3⟩

theorem C6_failure_logged_not_emitted_witness :
    (ensureRun false SyncStatus.SYNCED [Emit.messagesPersisted []] (some "io error")
      SyncStatus.SYNCED).status = SyncStatus.FAILED ∧
    (ensureRun false SyncStatus.SYNCED [Emit.messagesPersisted []] (some "io error")
      SyncStatus.SYNCED).logs = ["io error"] ∧
    (∀ cid err, Emit.syncFailed cid err ∉
      (ensureRun false SyncStatus.SYNCED [Emit.messagesPersisted []] (some "io error")
        SyncStatus.SYNCED).emits) :=
  C6_failure_logged_not_emitted false SyncStatus.SYNCED [Emit.messagesPersisted []]
    "io error" SyncStatus.SYNCED (by decide) rfl
    (by intro cid err hmem; simp at hmem)

/-- The `message-deleted` handler (index.ts lines 59-67):
`database.set('message', { messageId, platform }, { deleted: 1, lastUpdated: now })`
— a point update of every row matching the key. -/
def onDeleted (now : Int) (mid pf : String) (store : List MessageRecord) : List MessageRecord :=
  store.map fun r =>
    if r.messageId = mid ∧ r.platform = pf then
      { r with deleted := 1, lastUpdated := now }
    else r

/-- The `message-updated` handler (index.ts lines 69-77):
`database.set('message', { messageId, platform }, { content, lastUpdated: now })`. -/
def onUpdated (now : Int) (mid pf newContent : String) (store : List MessageRecord) : List MessageRecord :=
  store.map fun r =>
    if r.messageId = mid ∧ r.platform = pf then
      { r with content := newContent, lastUpdated := now }
    else r

/-- The service state the edit/delete handlers run against: the actor
map (with whatever per-channel statuses) and the message store. -/
structure SystemState where
  actors : List (String × LiveState)
  store : List MessageRecord
deriving DecidableEq

/-- The `message-deleted` handler as a step on the whole service state:
it goes straight to the database and touches no actor. -/
def deletedStep (now : Int) (mid pf : String) (sys : SystemState) : SystemState :=
  { sys with store := onDeleted now mid pf sys.store }

/-- The `message-updated` handler as a step on the whole service state. -/
def updatedStep (now : Int) (mid pf newContent : String) (sys : SystemState) : SystemState :=
  { sys with store := onUpdated now mid pf newContent sys.store }

/-- C9: edit and delete events bypass the channel actor entirely.  For
any actor map — any statuses, including `FAILED` — the handlers leave
the actors untouched, their effect on the store does not depend on the
actors at all, and each row keyed by `(messageId, platform)` receives a
point update setting only `deleted` and `lastUpdated` (deletes)
respectively only `content` and `lastUpdated` (edits), every other
field of every row being preserved. -/
theorem C9_point_updates (now : Int) (mid pf newContent : String) (sys : SystemState) :
    (deletedStep now mid pf sys).actors = sys.actors ∧
    (updatedStep now mid pf newContent sys).actors = sys.actors ∧
    (∀ actors2, (deletedStep now mid pf { sys with actors := actors2 }).store
      = (deletedStep now mid pf sys).store) ∧
    (∀ actors2, (updatedStep now mid pf newContent { sys with actors := actors2 }).store
      = (updatedStep now mid pf newContent sys).store) ∧
    ((deletedStep now mid pf sys).store.map (fun r => (r.deleted, r.lastUpdated))
      = sys.store.map (fun r =>
          if r.messageId = mid ∧ r.platform = pf then ((1 : Int), now)
          else (r.deleted, r.lastUpdated))) ∧
    ((deletedStep now mid pf sys).store.map (fun r =>
        (r.content, r.platform, r.guildId, r.messageId, r.userId, r.timestamp,
          r.quoteId, r.username, r.nickname, r.channelId, r.selfId))
      = sys.store.map (fun r =>
          (r.content, r.platform, r.guildId, r.messageId, r.userId, r.timestamp,
            r.quoteId, r.username, r.nickname, r.channelId, r.selfId))) ∧
    ((updatedStep now mid pf newContent sys).store.map (fun r => (r.content, r.lastUpdated))
      = sys.store.map (fun r =>
          if r.messageId = mid ∧ r.platform = pf then (newContent, now)
          else (r.content, r.lastUpdated))) ∧
    ((updatedStep now mid pf newContent sys).store.map (fun r =>
        (r.deleted, r.platform, r.guildId, r.messageId, r.userId, r.timestamp,
          r.quoteId, r.username, r.nickname, r.channelId, r.selfId))
      = sys.store.map (fun r =>
          (r.deleted, r.platform, r.guildId, r.messageId, r.userId, r.timestamp,
            r.quoteId, r.username, r.nickname, r.channelId, r.selfId))) := by
  refine ⟨rfl, rfl, fun _ => rfl, fun _ => rfl, ?_, ?_, ?_, ?_⟩ <;>
    simp only [deletedStep, updatedStep, onDeleted, onUpdated, List.map_map] <;>
    refine List.map_congr_left ?_ <;>
    intro r hr <;>
    by_cases hk : r.messageId = mid ∧ r.platform = pf <;>
    simp [hk]

/-- The accumulation loop of `getHistory` (channel.ts lines 103-111):
each iteration pushes the whole fetched page, then stops when that page
was empty (source exhausted) or at least `count` messages have
accumulated; pagination continues from `data[0].messageId` otherwise. -/
def getHistoryAccum (count : Nat) : List (List UMessage) → List UMessage → List UMessage
  | [], buffer => buffer
  | p :: rest, buffer =>
    if p.length = 0 ∨ count ≤ (buffer ++ p).length then buffer ++ p
    else getHistoryAccum count rest (buffer ++ p)

/-- `SyncChannel.getHistory` (channel.ts lines 99-113): accumulate,
then `adapt(buffer.reverse())`; the full adapted batch is returned (its
in-retention part is also upserted on the way). -/
def getHistoryRecords (platform guildId : String) (count : Nat)
    (pages : List (List UMessage)) : List MessageRecord :=
  adaptReturned platform guildId (getHistoryAccum count pages []).reverse

/-- `SyncChannel.getMessages` (channel.ts lines 149-161).  `stored` is
the channel's rows in ascending `id` (insertion) order, so the
`orderBy('id', 'desc') . limit(count)` query yields the newest `count`
of them newest-first, which the code then reverses; `source c` is the
page stream `getMessageList` serves when the walk starts at cursor `c`
(`messages[0]?.messageId`, the oldest locally known id). -/
def getMessagesModel (platform guildId : String) (count : Nat)
    (stored : List MessageRecord) (source : Option String → List (List UMessage)) :
    List MessageRecord :=
  let messages := (stored.reverse.take count).reverse
  if messages.length < count then
    getHistoryRecords platform guildId (count - messages.length)
      (source ((messages.head?).map (fun r => r.messageId))) ++ messages
  else messages

/-- C8 counterexample: with one stored record and `count = 2` the
shortfall is 1, but the remote page holds two messages and the history
call accumulates whole pages: two records are fetched and prepended,
and the result has three elements, not two — `getMessages` does not
fetch exactly the shortfall. -/
theorem C8_counterexample :
    (getHistoryRecords "pf" "gd" 1 [[m3, m4]]).length = 2 ∧
    (getHistoryRecords "pf" "gd" 1 [[m3, m4]]).length ≠ 1 ∧
    (getMessagesModel "pf" "gd" 2 [Message.adapt m5 "pf" "gd"]
      (fun _ => [[m3, m4]])).length = 3 ∧
    (getMessagesModel "pf" "gd" 2 [Message.adapt m5 "pf" "gd"]
      (fun _ => [[m3, m4]])).length ≠ 2 := by
  refine ⟨by decide, by decide, by decide, by decide⟩

theorem getHistoryAccum_ge (count : Nat) (pages : List (List UMessage)) :
    ∀ buffer : List UMessage, (∀ p ∈ pages, p ≠ []) →
      count ≤ pages.flatten.length + buffer.length →
      count ≤ (getHistoryAccum count pages buffer).length := by
  induction pages with
  | nil =>
    intro buffer _ h
    simpa using h
  | cons p rest ih =>
    intro buffer hne h
    rw [getHistoryAccum]
    split
    · rename_i hc
      rcases hc with hc | hc
      · exact absurd (List.length_eq_zero.1 hc) (hne p (List.mem_cons_self p rest))
      · exact hc
    · apply ih (buffer ++ p) (fun x hx => hne x (List.mem_cons_of_mem p hx))
      simp only [List.flatten_cons, List.length_append] at h ⊢
      omega

/-- C8 amended: `getMessages(count)` reads the newest `count` stored
rows newest-first and reverses them to chronological order; when fewer
than `count` are stored it requests exactly the shortfall from
`getHistory`, cursored at the oldest locally known message id, and
prepends every fetched record — but the history call accumulates whole
pages until at least the shortfall is collected (or the source is
exhausted), so at least the shortfall — possibly more — is fetched and
the result may exceed `count` elements. -/
theorem C8_amended_recent (platform guildId : String) (count : Nat)
    (stored : List MessageRecord) (source : Option String → List (List UMessage))
    (h1 : stored.length < count)
    (h2 : ∀ p ∈ source ((stored.head?).map (fun r => r.messageId)), p ≠ [])
    (h3 : count - stored.length ≤
      (source ((stored.head?).map (fun r => r.messageId))).flatten.length) :
    getMessagesModel platform guildId count stored source
      = getHistoryRecords platform guildId (count - stored.length)
          (source ((stored.head?).map (fun r => r.messageId))) ++ stored ∧
    count - stored.length ≤
      (getHistoryRecords platform guildId (count - stored.length)
        (source ((stored.head?).map (fun r => r.messageId)))).length ∧
    (∀ c : Nat, c ≤ stored.length →
      getMessagesModel platform guildId c stored source = (stored.reverse.take c).reverse) := by
  have hms : (stored.reverse.take count).reverse = stored := by
    rw [List.take_of_length_le (by simpa using h1.le), List.reverse_reverse]
  refine ⟨?_, ?_, ?_⟩
  · simp only [getMessagesModel, hms]
    rw [if_pos h1]
  · have hlen := getHistoryAccum_ge (count - stored.length)
      (source ((stored.head?).map (fun r => r.messageId))) [] h2 (by simpa using h3)
    simpa [getHistoryRecords, adaptReturned] using hlen
  · intro c hc
    have hlen2 : ((stored.reverse.take c).reverse).length = c := by
      simp only [List.length_reverse, List.length_take]
      omega
    simp only [getMessagesModel]
    rw [hlen2, if_neg (Nat.lt_irrefl c)]

/-- One stored record, oldest (and newest) local row. -/
def stored1 : List MessageRecord := [Message.adapt m5 "pf" "gd"]

/-- A remote source serving a one-message page and then a two-message
page, regardless of cursor. -/
def src1 : Option String → List (List UMessage) := fun _ => [[m2], [m3, m4]]

theorem C8_amended_recent_witness :
    getMessagesModel "pf" "gd" 3 stored1 src1
      = getHistoryRecords "pf" "gd" (3 - stored1.length)
          (src1 ((stored1.head?).map (fun r => r.messageId))) ++ stored1 ∧
    3 - stored1.length ≤
      (getHistoryRecords "pf" "gd" (3 - stored1.length)
        (src1 ((stored1.head?).map (fun r => r.messageId)))).length ∧
    (∀ c : Nat, c ≤ stored1.length →
      getMessagesModel "pf" "gd" c stored1 src1 = (stored1.reverse.take c).reverse) :=
  C8_amended_recent "pf" "gd" 3 stored1 src1 (by decide) (by decide) (by decide)
